import Mathlib

/-!
Verification of the PrimeShipping SFI core (src/sfi_cli.py, src/app.py).

The Python source is shallowly embedded: Python arbitrary-precision
non-negative integers become `Nat` (counts that may be negative become
`Int`), Python dicts become association lists in insertion order,
fallible operations return `Except String`.  The two sources of
nondeterminism/effects in the code — `random.choice` in the dataset
generator and file I/O — are abstracted as explicit oracle parameters
respectively elided (the file write is assumed to succeed; the claims
under study concern the computation before the write).
-/

/-- Embeds `get_primes`'s trial-division square-root bound.  Python uses
`int(math.sqrt(num))`; we model it as the exact integer square root,
computed by a kernel-reducible downward search. -/
def isqrtAux : Nat → Nat → Nat
  | 0, _ => 0
  | k + 1, n => if (k + 1) * (k + 1) ≤ n then k + 1 else isqrtAux k n

/-- Integer square root: the largest `k` with `k * k ≤ n`. -/
def isqrt (n : Nat) : Nat := isqrtAux n n

/-- Embeds the body of `get_primes`'s candidate test: trial division of
`num` by every `i` in `range(2, int(math.sqrt(num)) + 1)`. -/
def isPrimeTrial (num : Nat) : Bool :=
  (List.range' 2 (isqrt num - 1)).all (fun i => num % i != 0)

/-- Embeds the `while` search of `get_primes`: starting at `num`, keep
incrementing until the trial test passes.  The Python loop is unbounded;
here it carries fuel `num + 2`, which `searchPrime_fuel_sufficient`
proves is always enough (Bertrand), so the base case is unreachable
for `2 ≤ num`. -/
def searchPrime : Nat → Nat → Nat
  | 0, num => num
  | fuel + 1, num => if isPrimeTrial num then num else searchPrime fuel (num + 1)

/-- Embeds the outer loop of `get_primes`: collect `n` primes, scanning
candidates upward from `num`. -/
def getPrimesAux : Nat → Nat → List Nat
  | 0, _ => []
  | n + 1, num =>
    let p := searchPrime (num + 2) num
    p :: getPrimesAux n (p + 1)

/-- Embeds `get_primes(count)`.  The candidate starts at 2; for
`count <= 0` the `while len(primes) < count` guard is immediately false
and the empty list is returned. -/
def get_primes (count : Int) : List Nat := getPrimesAux count.toNat 2

/-- Embeds the `ATTRIBUTE_GROUPS` constant, a Python dict in insertion
order. -/
def ATTRIBUTE_GROUPS : List (String × List String) :=
  [("origin", ["New York", "Los Angeles", "Chicago", "Houston", "Miami"]),
   ("destination", ["London", "Tokyo", "Paris", "Sydney", "Berlin"]),
   ("carrier", ["PrimeShip", "SwiftLog", "GlobalEx", "CargoFast"]),
   ("status", ["Pending", "In Transit", "Delivered", "Delayed", "Customs Hold"]),
   ("priority", ["Standard", "Express", "Overnight"])]

/-- The group names in declared order (`ATTRIBUTE_GROUPS.keys()`). -/
def groupNames : List String := ATTRIBUTE_GROUPS.map (fun gv => gv.1)

/-- The (group, value) pairs in catalog traversal order: groups in
declared order, values within a group in declared order — the order in
which `generate_prime_map` walks the catalog. -/
def catalogPairs : List (String × String) :=
  ATTRIBUTE_GROUPS.flatMap (fun gv => gv.2.map (fun v => (gv.1, v)))

/-- Embeds `total_values = sum(len(values) for values in ATTRIBUTE_GROUPS.values())`. -/
def total_values : Nat := (ATTRIBUTE_GROUPS.map (fun gv => gv.2.length)).sum

/-- Embeds the joint construction of `prime_map` and `reverse_prime_map`
in `generate_prime_map`: the k-th pair of the catalog traversal receives
`primes[k]`.  Flattening the nested dict, the assignment is the list of
((group, value), prime) pairs. -/
def ASSIGN : List ((String × String) × Nat) :=
  catalogPairs.zip (get_primes (Int.ofNat total_values))

/-- Membership/lookup in the nested dict `PRIME_MAP`: the test
`group in PRIME_MAP and value in PRIME_MAP[group]` succeeds exactly when
this lookup is `some`, and then yields `PRIME_MAP[group][value]`. -/
def primeFor (g v : String) : Option Nat := ASSIGN.lookup (g, v)

/-- Embeds `REVERSE_PRIME_MAP`: prime to (group, value), in construction
order. -/
def REVERSE_PRIME_MAP : List (Nat × String × String) :=
  ASSIGN.map (fun e => (e.2, e.1.1, e.1.2))

/-- Sorted insertion of a key into an ascending list (helper for the
model of Python's `sorted`). -/
def insertSorted (x : Nat) : List Nat → List Nat
  | [] => [x]
  | y :: ys => if x ≤ y then x :: y :: ys else y :: insertSorted x ys

/-- Ascending insertion sort, modelling Python's `sorted` on a list of
keys. -/
def sortNat (l : List Nat) : List Nat := l.foldr insertSorted []

/-- Embeds `sorted_primes = sorted(REVERSE_PRIME_MAP.keys())` together
with the per-prime lookup `REVERSE_PRIME_MAP[prime]` done by the decode
loop: the reverse-map entries, sorted by prime ascending. -/
def SORTED_ENTRIES : List (Nat × String × String) :=
  (sortNat (REVERSE_PRIME_MAP.map (fun e => e.1))).filterMap
    (fun p => (REVERSE_PRIME_MAP.filter (fun e => e.1 == p)).head?)

/-- Embeds Python dict assignment `d[k] = v`: overwrite in place when the
key is present, append otherwise. -/
def dictInsert (d : List (String × String)) (k v : String) : List (String × String) :=
  if d.any (fun kv => kv.1 == k) then
    d.map (fun kv => if kv.1 == k then (k, v) else kv)
  else d ++ [(k, v)]

/-- Embeds the inner `while temp_vector % prime == 0: temp_vector //= prime`
of `decode_sfi_vector`.  The fuel is the starting value itself, which is
always sufficient: each division by a prime `p >= 2` at least halves the
value. -/
def stripFactorFuel : Nat → Nat → Nat → Nat
  | 0, _, n => n
  | fuel + 1, p, n => if n % p == 0 then stripFactorFuel fuel p (n / p) else n

/-- Divides all factors `p` out of `n` (the inner while loop). -/
def stripFactor (p n : Nat) : Nat := stripFactorFuel n p n

/-- Embeds the `for prime in sorted_primes` scan of `decode_sfi_vector`:
record the (group, value) of each dividing prime into the in-progress
dict, strip the prime out, and break early once the remainder reaches 1.
Returns the dict and the final remainder. -/
def decodeLoop : List (Nat × String × String) → Nat → List (String × String) →
    List (String × String) × Nat
  | [], temp, acc => (acc, temp)
  | (p, g, v) :: rest, temp, acc =>
    if temp % p == 0 then
      let acc2 := dictInsert acc g v
      let temp2 := stripFactor p temp
      if temp2 == 1 then (acc2, 1) else decodeLoop rest temp2 acc2
    else decodeLoop rest temp acc

/-- Embeds the final fill loop of `decode_sfi_vector`: every catalog
group absent from the decoded dict is set to "Unknown". -/
def fillUnknown (d : List (String × String)) : List (String × String) :=
  groupNames.foldl
    (fun d g => if d.any (fun kv => kv.1 == g) then d else d ++ [(g, "Unknown")]) d

/-- Result of a successful decode: the attribute dict and the optional
unrecognized-factor warning.  The Python warning is a message string
naming the leftover remainder; we record the remainder itself. -/
structure DecodeResult where
  attrs : List (String × String)
  warning : Option Nat
deriving DecidableEq, Repr

/-- Embeds `decode_sfi_vector`: reject non-positive vectors, scan the
sorted primes, attach a warning when the remainder is not 1, fill the
missing groups with "Unknown". -/
def decode_sfi_vector (v : Int) : Except String DecodeResult :=
  if v ≤ 0 then .error "Invalid SFI vector provided. Must be a positive integer."
  else
    let r := decodeLoop SORTED_ENTRIES v.toNat []
    .ok { attrs := fillUnknown r.1
          warning := if r.2 != 1 then some r.2 else none }

/-- Embeds `encode_shipment`: multiply the primes of the known
(group, value) pairs of the details dict, silently skipping unknown
pairs.  The `try/except` of the source cannot fire on this pure
computation, so the model never returns the Python `None`. -/
def encode_shipment (details : List (String × String)) : Nat :=
  details.foldl
    (fun acc gv =>
      match primeFor gv.1 gv.2 with
      | some p => acc * p
      | none => acc) 1

/-- A shipment record: id and SFI vector. -/
structure Shipment where
  id : String
  sfi_vector : Nat
deriving DecidableEq, Repr

/-- Outcome of `generate_shipment_data` (the file write, assumed to
succeed, is elided; `success`/`count` mirror the returned dict). -/
structure GenResult where
  success : Bool
  count : Nat
  shipments : List Shipment
deriving DecidableEq, Repr

/-- Embeds `generate_shipment_data(count)`.  `random.choice` per record
is abstracted as the oracle `pickDetails`, the id scheme as `mkId`.
`for i in range(count)` runs `count.toNat` times (zero times for
`count <= 0`), and every encoded record is appended (the encode cannot
fail in the model). -/
def generate_shipment_data (count : Int) (pickDetails : Nat → List (String × String))
    (mkId : Nat → String) : GenResult :=
  let shipments := (List.range count.toNat).map
    (fun i => Shipment.mk (mkId i) (encode_shipment (pickDetails i)))
  { success := true, count := shipments.length, shipments := shipments }

/-- Embeds Python `str.isdigit` for ASCII input: nonempty and all
digits (stated over the underlying character list). -/
def isdigitStr (s : String) : Bool := !s.data.isEmpty && s.data.all Char.isDigit

/-- Embeds Python `int(s)` on a digit string (stated over the
underlying character list). -/
def digitsToNat (s : String) : Nat :=
  s.data.foldl (fun n c => n * 10 + (c.toNat - 48)) 0

/-- Embeds the `/generate` route handler `generate_data` of app.py:
reject a count string that is not all digits or whose value is not
positive, otherwise invoke the core generator. -/
def generate_data (countStr : String) (pickDetails : Nat → List (String × String))
    (mkId : Nat → String) : Except String GenResult :=
  if !isdigitStr countStr || digitsToNat countStr ≤ 0 then
    .error "Invalid count specified. Must be a positive integer."
  else .ok (generate_shipment_data (Int.ofNat (digitsToNat countStr)) pickDetails mkId)

/-- Successful output of `filter_shipment_data` (timing and file name
elided). -/
structure FilterResult where
  criteria_used : List (String × String)
  filter_vector : Nat
  total_checked : Nat
  results : List Shipment
deriving DecidableEq, Repr

/-- Embeds the criteria loop of `filter_shipment_data`: multiply the
primes of the criteria pairs found in `PRIME_MAP` into the filter vector
and collect those pairs; pairs not in the map are dropped. -/
def build_filter (criteria : List (String × String)) : Nat × List (String × String) :=
  criteria.foldl
    (fun acc gv =>
      match primeFor gv.1 gv.2 with
      | some p => (acc.1 * p, acc.2 ++ [gv])
      | none => acc) (1, [])

/-- Embeds `filter_shipment_data` after the criteria JSON has been
parsed and the shipments file read (both elided): build the filter
vector, fail on the two degenerate cases, otherwise keep exactly the
records whose `sfi_vector % filter_vector == 0`. -/
def filter_shipment_data (criteria : List (String × String)) (records : List Shipment) :
    Except String FilterResult :=
  let fv := (build_filter criteria).1
  let valid := (build_filter criteria).2
  if fv == 1 && !valid.isEmpty then
    .error "Internal error creating filter vector from valid criteria."
  else if fv == 1 then
    .error "No valid filter criteria provided."
  else
    .ok { criteria_used := valid
          filter_vector := fv
          total_checked := records.length
          results := records.filter (fun s => s.sfi_vector % fv == 0) }

/-- The remainder the decode scan is left with: the input with every
assigned prime repeatedly divided out, in scan order (the claims' "after
repeatedly dividing out all assigned primes").  `decodeLoop_snd` proves
this is exactly the loop's final `temp_vector`. -/
def stripAllAssigned (n : Nat) : Nat :=
  SORTED_ENTRIES.foldl (fun t e => stripFactor e.1 t) n

/-! ## Concrete facts about the built assignment -/

/-- The decode scan order, evaluated: the 22 reverse-map entries sorted
by prime ascending. -/
theorem SORTED_ENTRIES_eq : SORTED_ENTRIES =
    [(2, "origin", "New York"), (3, "origin", "Los Angeles"), (5, "origin", "Chicago"),
     (7, "origin", "Houston"), (11, "origin", "Miami"), (13, "destination", "London"),
     (17, "destination", "Tokyo"), (19, "destination", "Paris"), (23, "destination", "Sydney"),
     (29, "destination", "Berlin"), (31, "carrier", "PrimeShip"), (37, "carrier", "SwiftLog"),
     (41, "carrier", "GlobalEx"), (43, "carrier", "CargoFast"), (47, "status", "Pending"),
     (53, "status", "In Transit"), (59, "status", "Delivered"), (61, "status", "Delayed"),
     (67, "status", "Customs Hold"), (71, "priority", "Standard"), (73, "priority", "Express"),
     (79, "priority", "Overnight")] := rfl

theorem entries_prime : ∀ e ∈ SORTED_ENTRIES, Nat.Prime e.1 := by decide

theorem entries_two_le : ∀ e ∈ SORTED_ENTRIES, 2 ≤ e.1 := by decide

theorem entries_nodup : (SORTED_ENTRIES.map (fun e => e.1)).Nodup := by decide

theorem assign_prime : ∀ e ∈ ASSIGN, Nat.Prime e.2 := by decide

theorem assign_snd_inj : ∀ e1 ∈ ASSIGN, ∀ e2 ∈ ASSIGN, e1.2 = e2.2 → e1.1 = e2.1 := by decide

/-- Traversal order matches scan order: ASSIGN, reshaped, is already
sorted by prime. -/
theorem assign_to_sorted :
    SORTED_ENTRIES = ASSIGN.map (fun e => (e.2, e.1.1, e.1.2)) := rfl

theorem groupNames_nodup : groupNames.Nodup := by decide

/-! ## List.lookup on association lists -/

theorem lookup_append_left {d x : List (String × String)} {k : String} {v : String}
    (h : d.lookup k = some v) : (d ++ x).lookup k = some v := by
  induction d with
  | nil => simp [List.lookup] at h
  | cons kv rest ih =>
    rcases kv with ⟨a, b⟩
    rw [List.cons_append, List.lookup_cons]
    rw [List.lookup_cons] at h
    cases hk : (k == a) with
    | true => rw [hk] at h; simpa using h
    | false => rw [hk] at h; simp only []; exact ih h

theorem lookup_append_right {d x : List (String × String)} {k : String}
    (h : d.lookup k = none) : (d ++ x).lookup k = x.lookup k := by
  induction d with
  | nil => simp
  | cons kv rest ih =>
    rcases kv with ⟨a, b⟩
    rw [List.cons_append, List.lookup_cons]
    rw [List.lookup_cons] at h
    cases hk : (k == a) with
    | true => rw [hk] at h; simp at h
    | false => rw [hk] at h; simp only []; exact ih h

theorem lookup_none_of_not_mem {d : List (String × String)} {k : String}
    (h : k ∉ d.map (fun kv => kv.1)) : d.lookup k = none := by
  induction d with
  | nil => rfl
  | cons kv rest ih =>
    rcases kv with ⟨a, b⟩
    rw [List.lookup_cons]
    simp only [List.map_cons, List.mem_cons] at h
    push_neg at h
    have hk : (k == a) = false := by
      cases hka : (k == a) with
      | true => exact absurd (by simpa using hka) h.1
      | false => rfl
    rw [hk]
    exact ih h.2


/-! ## The inner division loop -/

theorem stripFactorFuel_not_dvd {f p n : Nat} (h : n % p ≠ 0) :
    stripFactorFuel f p n = n := by
  cases f with
  | zero => rfl
  | succ f =>
    rw [stripFactorFuel]
    have hb : (n % p == 0) = false := by simpa using h
    rw [hb]
    simp

theorem stripFactor_not_dvd {p n : Nat} (h : n % p ≠ 0) : stripFactor p n = n :=
  stripFactorFuel_not_dvd h

theorem stripFactor_one {p : Nat} (hp : 2 ≤ p) : stripFactor p 1 = 1 := by
  apply stripFactor_not_dvd
  have : 1 % p = 1 := Nat.mod_eq_of_lt (by omega)
  omega

theorem stripFactorFuel_dvd_step {f p n : Nat} (hf : 0 < f) (hd : n % p = 0) :
    stripFactorFuel f p n = stripFactorFuel (f - 1) p (n / p) := by
  cases f with
  | zero => omega
  | succ f =>
    rw [stripFactorFuel]
    have hb : (n % p == 0) = true := by simpa using hd
    rw [hb]
    simp

theorem stripFactor_mul {p T : Nat} (hp : 2 ≤ p) (hT : 0 < T) (h : T % p ≠ 0) :
    stripFactor p (p * T) = T := by
  have hpos : 0 < p * T := Nat.mul_pos (by omega) hT
  rw [stripFactor, stripFactorFuel_dvd_step hpos (Nat.mul_mod_right p T)]
  rw [Nat.mul_div_cancel_left T (by omega)]
  exact stripFactorFuel_not_dvd h

/-! ## Products of distinct primes -/

theorem prod_pos_of_primes {l : List Nat} (h : ∀ p ∈ l, Nat.Prime p) : 0 < l.prod :=
  List.prod_pos (fun a ha => (h a ha).pos)

theorem prime_not_dvd_prod {p : Nat} {l : List Nat} (hp : Nat.Prime p)
    (hl : ∀ q ∈ l, Nat.Prime q) (hne : p ∉ l) : ¬ p ∣ l.prod := by
  intro hdvd
  rcases (hp.prime.dvd_prod_iff).mp hdvd with ⟨q, hq, hpq⟩
  have := (Nat.prime_dvd_prime_iff_eq hp (hl q hq)).mp hpq
  exact hne (this ▸ hq)

theorem prod_primes_dvd_iff {l : List Nat} (hl : ∀ p ∈ l, Nat.Prime p)
    (hnd : l.Nodup) (n : Nat) : l.prod ∣ n ↔ ∀ p ∈ l, p ∣ n := by
  induction l with
  | nil => simp
  | cons q rest ih =>
    rcases List.nodup_cons.mp hnd with ⟨hq_nm, hrest_nd⟩
    have hq : Nat.Prime q := hl q (List.mem_cons_self q rest)
    have hrest : ∀ p ∈ rest, Nat.Prime p := fun p hp => hl p (List.mem_cons_of_mem q hp)
    constructor
    · intro h p hp
      exact dvd_trans (List.dvd_prod hp) h
    · intro h
      rw [List.prod_cons]
      have hco : q.Coprime rest.prod := by
        have : ¬ q ∣ rest.prod := prime_not_dvd_prod hq hrest hq_nm
        exact (Nat.Prime.coprime_iff_not_dvd hq).mpr this
      exact Nat.Coprime.mul_dvd_of_dvd_of_dvd hco
        (h q (List.mem_cons_self q rest))
        ((ih hrest hrest_nd).mpr (fun p hp => h p (List.mem_cons_of_mem q hp)))

/-! ## The decode scan: remainder characterization -/

theorem stripAll_one {L : List (Nat × String × String)} (h2 : ∀ e ∈ L, 2 ≤ e.1) :
    L.foldl (fun t e => stripFactor e.1 t) 1 = 1 := by
  induction L with
  | nil => rfl
  | cons e rest ih =>
    rw [List.foldl_cons, stripFactor_one (h2 e (List.mem_cons_self e rest))]
    exact ih (fun e he => h2 e (List.mem_cons_of_mem _ he))

theorem decodeLoop_snd {L : List (Nat × String × String)} (h2 : ∀ e ∈ L, 2 ≤ e.1)
    (t : Nat) (acc : List (String × String)) :
    (decodeLoop L t acc).2 = L.foldl (fun t e => stripFactor e.1 t) t := by
  induction L generalizing t acc with
  | nil => rfl
  | cons e rest ih =>
    rcases e with ⟨p, g, v⟩
    have hp2 : 2 ≤ p := h2 (p, g, v) (List.mem_cons_self _ rest)
    have h2r : ∀ e ∈ rest, 2 ≤ e.1 := fun e he => h2 e (List.mem_cons_of_mem _ he)
    rw [decodeLoop, List.foldl_cons]
    cases hdp : (t % p == 0) with
    | true =>
      simp only [if_true]
      cases h1 : (stripFactor p t == 1) with
      | true =>
        have ht1 : stripFactor p t = 1 := by simpa using h1
        simp only [if_true, ht1, stripAll_one h2r]
      | false =>
        simp only [if_false, Bool.false_eq_true]
        exact ih h2r (stripFactor p t) (dictInsert acc g v)
    | false =>
      simp only [if_false, Bool.false_eq_true]
      have hnd : t % p ≠ 0 := by simpa using hdp
      rw [stripFactor_not_dvd hnd]
      exact ih h2r t acc

/-! ## The decode scan on a product of distinct assigned primes -/

theorem primes_prod_eq_one {r : List (Nat × String × String)}
    (hp : ∀ e ∈ r, Nat.Prime e.1) (h1 : (r.map (fun e => e.1)).prod = 1) : r = [] := by
  cases r with
  | nil => rfl
  | cons e2 r2 =>
    exfalso
    have hd : e2.1 ∣ (((e2 :: r2).map (fun e => e.1)).prod) :=
      List.dvd_prod (by simp)
    rw [h1] at hd
    have := Nat.le_of_dvd (by omega) hd
    have := (hp e2 (List.mem_cons_self e2 r2)).two_le
    omega

theorem decodeLoop_prod_subset {L chosen : List (Nat × String × String)}
    (hsub : chosen.Sublist L) (hp : ∀ e ∈ L, Nat.Prime e.1)
    (hnd : (L.map (fun e => e.1)).Nodup) (acc : List (String × String)) :
    decodeLoop L ((chosen.map (fun e => e.1)).prod) acc =
      (chosen.foldl (fun d e => dictInsert d e.2.1 e.2.2) acc, 1) := by
  induction L generalizing chosen acc with
  | nil =>
    rw [List.sublist_nil.mp hsub]
    rfl
  | cons e rest ih =>
    rcases e with ⟨p, g, v⟩
    have hpp : Nat.Prime p := hp (p, g, v) (List.mem_cons_self _ rest)
    have hpr : ∀ e ∈ rest, Nat.Prime e.1 := fun e he => hp e (List.mem_cons_of_mem _ he)
    have hmap : ((p, g, v) :: rest).map (fun e => e.1) = p :: rest.map (fun e => e.1) := rfl
    rw [hmap] at hnd
    rcases List.nodup_cons.mp hnd with ⟨hp_nm, hnd_r⟩
    rcases List.sublist_cons_iff.mp hsub with hskip | ⟨r, rfl, hr⟩
    · -- the head entry's prime is not part of the product: scan skips it
      have hne : ¬ p ∣ (chosen.map (fun e => e.1)).prod := by
        apply prime_not_dvd_prod hpp
        · intro q hq
          rcases List.mem_map.mp hq with ⟨e, he, rfl⟩
          exact hpr e (hskip.subset he)
        · intro hmem
          exact hp_nm ((hskip.map (fun e => e.1)).subset hmem)
      have hdp : ((chosen.map (fun e => e.1)).prod % p == 0) = false := by
        rw [Nat.dvd_iff_mod_eq_zero] at hne
        simpa using hne
      rw [decodeLoop, hdp]
      simp only [if_false, Bool.false_eq_true]
      exact ih hskip hpr hnd_r acc
    · -- the head entry's prime divides the product: record it and strip it
      have hTprimes : ∀ q ∈ r.map (fun e => e.1), Nat.Prime q := by
        intro q hq
        rcases List.mem_map.mp hq with ⟨e, he, rfl⟩
        exact hpr e (hr.subset he)
      have hTpos : 0 < (r.map (fun e => e.1)).prod :=
        prod_pos_of_primes hTprimes
      have hTnd : ¬ p ∣ (r.map (fun e => e.1)).prod := by
        apply prime_not_dvd_prod hpp hTprimes
        intro hmem
        exact hp_nm ((hr.map (fun e => e.1)).subset hmem)
      have hprod : (((p, g, v) :: r).map (fun e => e.1)).prod
          = p * (r.map (fun e => e.1)).prod := by
        rw [List.map_cons, List.prod_cons]
      have hdp : ((((p, g, v) :: r).map (fun e => e.1)).prod % p == 0) = true := by
        rw [hprod]
        simp [Nat.mul_mod_right]
      have hstrip : stripFactor p ((((p, g, v) :: r).map (fun e => e.1)).prod)
          = (r.map (fun e => e.1)).prod := by
        rw [hprod]
        exact stripFactor_mul hpp.two_le hTpos (by
          rw [Nat.dvd_iff_mod_eq_zero] at hTnd
          exact hTnd)
      rw [decodeLoop, hdp]
      simp only [if_true, hstrip]
      cases hT1 : ((r.map (fun e => e.1)).prod == 1) with
      | true =>
        have hr_nil : r = [] := by
          apply primes_prod_eq_one (fun e he => hpr e (hr.subset he))
          simpa using hT1
        subst hr_nil
        rfl
      | false =>
        simp only [if_false, Bool.false_eq_true]
        rw [ih hr hpr hnd_r (dictInsert acc g v)]
        rfl

/-! ## The decoded dict and the Unknown fill -/

theorem dictInsert_fresh {d : List (String × String)} {k v : String}
    (h : k ∉ d.map (fun kv => kv.1)) : dictInsert d k v = d ++ [(k, v)] := by
  rw [dictInsert]
  have : d.any (fun kv => kv.1 == k) = false := by
    rw [List.any_eq_false]
    intro kv hkv
    simp only [ne_eq, beq_iff_eq]
    intro heq
    exact h (List.mem_map.mpr ⟨kv, hkv, heq⟩)
  rw [this]
  simp

theorem foldl_dictInsert_fresh {chosen : List (Nat × String × String)}
    {acc : List (String × String)}
    (hfresh : ∀ e ∈ chosen, e.2.1 ∉ acc.map (fun kv => kv.1))
    (hnd : (chosen.map (fun e => e.2.1)).Nodup) :
    chosen.foldl (fun d e => dictInsert d e.2.1 e.2.2) acc
      = acc ++ chosen.map (fun e => (e.2.1, e.2.2)) := by
  induction chosen generalizing acc with
  | nil => simp
  | cons e rest ih =>
    rw [List.foldl_cons,
      dictInsert_fresh (hfresh e (List.mem_cons_self e rest))]
    rw [List.map_cons] at hnd
    rcases List.nodup_cons.mp hnd with ⟨he_nm, hnd_r⟩
    have hfresh2 : ∀ e2 ∈ rest, e2.2.1 ∉ (acc ++ [(e.2.1, e.2.2)]).map (fun kv => kv.1) := by
      intro e2 he2
      rw [List.map_append]
      simp only [List.mem_append]
      push_neg
      refine ⟨hfresh e2 (List.mem_cons_of_mem _ he2), ?_⟩
      simp only [List.map_cons, List.map_nil, List.mem_singleton]
      intro heq
      exact he_nm (heq ▸ List.mem_map.mpr ⟨e2, he2, rfl⟩)
    rw [ih hfresh2 hnd_r]
    simp

theorem fillUnknown_aux (names : List String) (d : List (String × String))
    (hnd : names.Nodup) :
    names.foldl
        (fun d g => if d.any (fun kv => kv.1 == g) then d else d ++ [(g, "Unknown")]) d
      = d ++ (names.filter (fun g => !(d.any (fun kv => kv.1 == g)))).map
          (fun g => (g, "Unknown")) := by
  induction names generalizing d with
  | nil => simp
  | cons g rest ih =>
    rcases List.nodup_cons.mp hnd with ⟨hg_nm, hnd_r⟩
    rw [List.foldl_cons, List.filter_cons]
    cases hg : d.any (fun kv => kv.1 == g) with
    | true =>
      simp only [hg, if_true, Bool.not_true, Bool.false_eq_true, if_false]
      exact ih d hnd_r
    | false =>
      simp only [hg, Bool.false_eq_true, if_false, Bool.not_false, if_true]
      rw [ih (d ++ [(g, "Unknown")]) hnd_r]
      have hfc : rest.filter
            (fun x => !((d ++ [(g, "Unknown")]).any (fun kv => kv.1 == x)))
          = rest.filter (fun x => !(d.any (fun kv => kv.1 == x))) := by
        apply List.filter_congr
        intro x hx
        have hgx : (g == x) = false := by
          cases hgx : (g == x) with
          | true => exact absurd (beq_iff_eq.mp hgx ▸ hx) hg_nm
          | false => rfl
        rw [List.any_append]
        simp only [List.any_cons, List.any_nil, Bool.or_false, hgx]
      rw [hfc, List.map_cons, List.append_assoc]
      rfl

theorem fillUnknown_eq (d : List (String × String)) :
    fillUnknown d
      = d ++ (groupNames.filter (fun g => !(d.any (fun kv => kv.1 == g)))).map
          (fun g => (g, "Unknown")) :=
  fillUnknown_aux groupNames d groupNames_nodup

theorem lookup_map_unknown {l : List String} {g : String} (h : g ∈ l) :
    (l.map (fun g => (g, "Unknown"))).lookup g = some "Unknown" := by
  induction l with
  | nil => cases h
  | cons a rest ih =>
    rw [List.map_cons, List.lookup_cons]
    cases hga : (g == a) with
    | true => rfl
    | false =>
      rcases List.mem_cons.mp h with heq | hmem
      · rw [heq] at hga
        simp at hga
      · exact ih hmem

theorem lookup_pairs {chosen : List (Nat × String × String)}
    (hnd : (chosen.map (fun e => e.2.1)).Nodup) :
    ∀ e ∈ chosen, (chosen.map (fun e => (e.2.1, e.2.2))).lookup e.2.1 = some e.2.2 := by
  induction chosen with
  | nil => intro e he; cases he
  | cons a rest ih =>
    rw [List.map_cons] at hnd
    rcases List.nodup_cons.mp hnd with ⟨ha_nm, hnd_r⟩
    intro e he
    rw [List.map_cons, List.lookup_cons]
    rcases List.mem_cons.mp he with heq | hmem
    · subst heq
      simp
    · cases hga : (e.2.1 == a.2.1) with
      | true =>
        exfalso
        exact ha_nm ((beq_iff_eq.mp hga) ▸ List.mem_map.mpr ⟨e, hmem, rfl⟩)
      | false =>
        exact ih hnd_r e hmem

/-! ## Bridging lookups in PRIME_MAP to the assignment list -/

theorem lookup_mem {α β : Type} [BEq α] [LawfulBEq α] {l : List (α × β)} {k : α}
    {b : β} (h : l.lookup k = some b) : (k, b) ∈ l := by
  induction l with
  | nil => cases h
  | cons e rest ih =>
    rcases e with ⟨a, q⟩
    rw [List.lookup_cons] at h
    cases hk : (k == a) with
    | true =>
      rw [hk] at h
      have hkey : k = a := beq_iff_eq.mp hk
      have hval : q = b := by simpa using h
      rw [hkey, ← hval]
      exact List.mem_cons_self _ _
    | false =>
      rw [hk] at h
      exact List.mem_cons_of_mem _ (ih h)

theorem primeFor_mem {g v : String} {p : Nat} (h : primeFor g v = some p) :
    ((g, v), p) ∈ ASSIGN :=
  lookup_mem h

theorem primeFor_prime {g v : String} {p : Nat} (h : primeFor g v = some p) :
    Nat.Prime p :=
  assign_prime ((g, v), p) (primeFor_mem h)

theorem primeFor_inj {g1 v1 g2 v2 : String} {p : Nat}
    (h1 : primeFor g1 v1 = some p) (h2 : primeFor g2 v2 = some p) :
    g1 = g2 ∧ v1 = v2 := by
  have := assign_snd_inj ((g1, v1), p) (primeFor_mem h1) ((g2, v2), p) (primeFor_mem h2) rfl
  exact ⟨congrArg Prod.fst this, congrArg Prod.snd this⟩

/-! ## Decoding a product of assigned primes -/

theorem any_key_eq_false {d : List (String × String)} {g : String}
    (h : g ∉ d.map (fun kv => kv.1)) : d.any (fun kv => kv.1 == g) = false := by
  rw [List.any_eq_false]
  intro kv hkv
  simp only [ne_eq, beq_iff_eq]
  intro heq
  exact h (List.mem_map.mpr ⟨kv, hkv, heq⟩)

theorem decode_prod_subset {chosen : List (Nat × String × String)}
    (hsub : chosen.Sublist SORTED_ENTRIES)
    (hnd : (chosen.map (fun e => e.2.1)).Nodup) :
    decode_sfi_vector (Int.ofNat ((chosen.map (fun e => e.1)).prod)) =
      .ok { attrs := chosen.map (fun e => (e.2.1, e.2.2)) ++
              (groupNames.filter (fun g =>
                !((chosen.map (fun e => (e.2.1, e.2.2))).any (fun kv => kv.1 == g)))).map
                (fun g => (g, "Unknown")),
            warning := none } := by
  have hprimes : ∀ q ∈ chosen.map (fun e => e.1), Nat.Prime q := by
    intro q hq
    rcases List.mem_map.mp hq with ⟨e, he, rfl⟩
    exact entries_prime e (hsub.subset he)
  have hpos : 0 < (chosen.map (fun e => e.1)).prod := prod_pos_of_primes hprimes
  have hneg : ¬ (Int.ofNat ((chosen.map (fun e => e.1)).prod) ≤ 0) := by
    simp only [Int.ofNat_eq_coe]
    omega
  rw [decode_sfi_vector, if_neg hneg]
  have htoNat : (Int.ofNat ((chosen.map (fun e => e.1)).prod)).toNat
      = (chosen.map (fun e => e.1)).prod := Int.toNat_ofNat _
  rw [htoNat]
  rw [decodeLoop_prod_subset hsub entries_prime entries_nodup []]
  rw [foldl_dictInsert_fresh (by intro e he; simp) hnd]
  simp only [List.nil_append]
  rw [fillUnknown_eq]
  rfl

/-! ## The encoder as a product -/

theorem encode_foldl_aux (l : List (String × String)) (a : Nat) :
    l.foldl
        (fun acc gv =>
          match primeFor gv.1 gv.2 with
          | some p => acc * p
          | none => acc) a
      = a * (l.map (fun gv => (primeFor gv.1 gv.2).getD 1)).prod := by
  induction l generalizing a with
  | nil => simp
  | cons gv rest ih =>
    rw [List.foldl_cons, List.map_cons, List.prod_cons]
    cases hpf : primeFor gv.1 gv.2 with
    | none =>
      simp only [hpf, Option.getD_none, one_mul]
      exact ih a
    | some p =>
      simp only [hpf, Option.getD_some]
      rw [ih (a * p), Nat.mul_assoc]

theorem encode_eq_prod (details : List (String × String)) :
    encode_shipment details
      = (details.map (fun gv => (primeFor gv.1 gv.2).getD 1)).prod := by
  rw [encode_shipment, encode_foldl_aux, Nat.one_mul]

/-! ## Locating the entry of each catalog value -/

theorem origin_block : ∀ v ∈ ["New York", "Los Angeles", "Chicago", "Houston", "Miami"],
    ∃ e ∈ ([(2, "origin", "New York"), (3, "origin", "Los Angeles"), (5, "origin", "Chicago"),
            (7, "origin", "Houston"), (11, "origin", "Miami")] : List (Nat × String × String)),
      e.2.1 = "origin" ∧ e.2.2 = v ∧ primeFor "origin" v = some e.1 := by decide

theorem destination_block : ∀ v ∈ ["London", "Tokyo", "Paris", "Sydney", "Berlin"],
    ∃ e ∈ ([(13, "destination", "London"), (17, "destination", "Tokyo"),
            (19, "destination", "Paris"), (23, "destination", "Sydney"),
            (29, "destination", "Berlin")] : List (Nat × String × String)),
      e.2.1 = "destination" ∧ e.2.2 = v ∧ primeFor "destination" v = some e.1 := by decide

theorem carrier_block : ∀ v ∈ ["PrimeShip", "SwiftLog", "GlobalEx", "CargoFast"],
    ∃ e ∈ ([(31, "carrier", "PrimeShip"), (37, "carrier", "SwiftLog"),
            (41, "carrier", "GlobalEx"), (43, "carrier", "CargoFast")] :
            List (Nat × String × String)),
      e.2.1 = "carrier" ∧ e.2.2 = v ∧ primeFor "carrier" v = some e.1 := by decide

theorem status_block : ∀ v ∈ ["Pending", "In Transit", "Delivered", "Delayed", "Customs Hold"],
    ∃ e ∈ ([(47, "status", "Pending"), (53, "status", "In Transit"),
            (59, "status", "Delivered"), (61, "status", "Delayed"),
            (67, "status", "Customs Hold")] : List (Nat × String × String)),
      e.2.1 = "status" ∧ e.2.2 = v ∧ primeFor "status" v = some e.1 := by decide

theorem priority_block : ∀ v ∈ ["Standard", "Express", "Overnight"],
    ∃ e ∈ ([(71, "priority", "Standard"), (73, "priority", "Express"),
            (79, "priority", "Overnight")] : List (Nat × String × String)),
      e.2.1 = "priority" ∧ e.2.2 = v ∧ primeFor "priority" v = some e.1 := by decide

theorem entries_decomp : SORTED_ENTRIES =
    [(2, "origin", "New York"), (3, "origin", "Los Angeles"), (5, "origin", "Chicago"),
     (7, "origin", "Houston"), (11, "origin", "Miami")] ++
    [(13, "destination", "London"), (17, "destination", "Tokyo"), (19, "destination", "Paris"),
     (23, "destination", "Sydney"), (29, "destination", "Berlin")] ++
    [(31, "carrier", "PrimeShip"), (37, "carrier", "SwiftLog"), (41, "carrier", "GlobalEx"),
     (43, "carrier", "CargoFast")] ++
    [(47, "status", "Pending"), (53, "status", "In Transit"), (59, "status", "Delivered"),
     (61, "status", "Delayed"), (67, "status", "Customs Hold")] ++
    [(71, "priority", "Standard"), (73, "priority", "Express"),
     (79, "priority", "Overnight")] := rfl

/-- C2: for every attribute mapping that assigns exactly one catalog value
to every attribute group (modelled as any dict-item list that is a
permutation of one pair per group, each value from that group's catalog
list), decoding the encoded vector returns exactly that mapping — the
decoded dict, in catalog group order, is a permutation of the input dict —
with no warning attached and no group set to "Unknown". -/
theorem C2_roundtrip (details : List (String × String)) (vo vd vc vs vp : String)
    (ho : vo ∈ ["New York", "Los Angeles", "Chicago", "Houston", "Miami"])
    (hd : vd ∈ ["London", "Tokyo", "Paris", "Sydney", "Berlin"])
    (hc : vc ∈ ["PrimeShip", "SwiftLog", "GlobalEx", "CargoFast"])
    (hs : vs ∈ ["Pending", "In Transit", "Delivered", "Delayed", "Customs Hold"])
    (hp : vp ∈ ["Standard", "Express", "Overnight"])
    (hperm : details.Perm
      [("origin", vo), ("destination", vd), ("carrier", vc), ("status", vs),
       ("priority", vp)]) :
    decode_sfi_vector (Int.ofNat (encode_shipment details))
      = .ok { attrs := [("origin", vo), ("destination", vd), ("carrier", vc),
                        ("status", vs), ("priority", vp)],
              warning := none }
    ∧ [("origin", vo), ("destination", vd), ("carrier", vc), ("status", vs),
        ("priority", vp)].Perm details
    ∧ ∀ kv ∈ [("origin", vo), ("destination", vd), ("carrier", vc), ("status", vs),
        ("priority", vp)], kv.2 ≠ "Unknown" := by
  obtain ⟨eo, heo_mem, heo_g, heo_v, heo_pf⟩ := origin_block vo ho
  obtain ⟨ed, hed_mem, hed_g, hed_v, hed_pf⟩ := destination_block vd hd
  obtain ⟨ec, hec_mem, hec_g, hec_v, hec_pf⟩ := carrier_block vc hc
  obtain ⟨es, hes_mem, hes_g, hes_v, hes_pf⟩ := status_block vs hs
  obtain ⟨ep, hep_mem, hep_g, hep_v, hep_pf⟩ := priority_block vp hp
  have hsub : ([eo] ++ [ed] ++ [ec] ++ [es] ++ [ep]).Sublist SORTED_ENTRIES := by
    rw [entries_decomp]
    exact List.Sublist.append
      (List.Sublist.append
        (List.Sublist.append
          (List.Sublist.append (List.singleton_sublist.mpr heo_mem)
            (List.singleton_sublist.mpr hed_mem))
          (List.singleton_sublist.mpr hec_mem))
        (List.singleton_sublist.mpr hes_mem))
      (List.singleton_sublist.mpr hep_mem)
  have hchosen : [eo] ++ [ed] ++ [ec] ++ [es] ++ [ep] = [eo, ed, ec, es, ep] := rfl
  rw [hchosen] at hsub
  have hgmap : ([eo, ed, ec, es, ep].map (fun e => e.2.1))
      = ["origin", "destination", "carrier", "status", "priority"] := by
    simp [heo_g, hed_g, hec_g, hes_g, hep_g]
  have hnd : ([eo, ed, ec, es, ep].map (fun e => e.2.1)).Nodup := by
    rw [hgmap]
    decide
  have henc : encode_shipment details = ([eo, ed, ec, es, ep].map (fun e => e.1)).prod := by
    rw [encode_eq_prod]
    rw [(hperm.map (fun gv => (primeFor gv.1 gv.2).getD 1)).prod_eq]
    simp [heo_pf, hed_pf, hec_pf, hes_pf, hep_pf]
  have hdec := decode_prod_subset hsub hnd
  have heo_p : eo.2 = ("origin", vo) := Prod.ext_iff.mpr ⟨heo_g, heo_v⟩
  have hed_p : ed.2 = ("destination", vd) := Prod.ext_iff.mpr ⟨hed_g, hed_v⟩
  have hec_p : ec.2 = ("carrier", vc) := Prod.ext_iff.mpr ⟨hec_g, hec_v⟩
  have hes_p : es.2 = ("status", vs) := Prod.ext_iff.mpr ⟨hes_g, hes_v⟩
  have hep_p : ep.2 = ("priority", vp) := Prod.ext_iff.mpr ⟨hep_g, hep_v⟩
  have hpairs : ([eo, ed, ec, es, ep].map (fun e => (e.2.1, e.2.2)))
      = [("origin", vo), ("destination", vd), ("carrier", vc), ("status", vs),
         ("priority", vp)] := by
    simp only [List.map_cons, List.map_nil]
    rw [show ((eo.2.1, eo.2.2) : String × String) = eo.2 from rfl,
        show ((ed.2.1, ed.2.2) : String × String) = ed.2 from rfl,
        show ((ec.2.1, ec.2.2) : String × String) = ec.2 from rfl,
        show ((es.2.1, es.2.2) : String × String) = es.2 from rfl,
        show ((ep.2.1, ep.2.2) : String × String) = ep.2 from rfl,
        heo_p, hed_p, hec_p, hes_p, hep_p]
  rw [hpairs] at hdec
  have hfill : (groupNames.filter (fun g =>
      !(([("origin", vo), ("destination", vd), ("carrier", vc), ("status", vs),
          ("priority", vp)]).any (fun kv => kv.1 == g)))).map (fun g => (g, "Unknown"))
      = [] := rfl
  rw [hfill, List.append_nil] at hdec
  refine ⟨?_, hperm.symm, ?_⟩
  · rw [henc]
    exact hdec
  · have hvo : vo ≠ "Unknown" :=
      (by decide : ∀ x ∈ ["New York", "Los Angeles", "Chicago", "Houston", "Miami"],
        x ≠ "Unknown") vo ho
    have hvd : vd ≠ "Unknown" :=
      (by decide : ∀ x ∈ ["London", "Tokyo", "Paris", "Sydney", "Berlin"],
        x ≠ "Unknown") vd hd
    have hvc : vc ≠ "Unknown" :=
      (by decide : ∀ x ∈ ["PrimeShip", "SwiftLog", "GlobalEx", "CargoFast"],
        x ≠ "Unknown") vc hc
    have hvs : vs ≠ "Unknown" :=
      (by decide : ∀ x ∈ ["Pending", "In Transit", "Delivered", "Delayed", "Customs Hold"],
        x ≠ "Unknown") vs hs
    have hvp : vp ≠ "Unknown" :=
      (by decide : ∀ x ∈ ["Standard", "Express", "Overnight"], x ≠ "Unknown") vp hp
    intro kv hkv
    simp only [List.mem_cons, List.not_mem_nil, or_false] at hkv
    rcases hkv with rfl | rfl | rfl | rfl | rfl
    · exact hvo
    · exact hvd
    · exact hvc
    · exact hvs
    · exact hvp

/-- Witness for C2 at a concrete full mapping. -/
theorem C2_roundtrip_witness :
    decode_sfi_vector (Int.ofNat (encode_shipment
        [("origin", "Chicago"), ("destination", "Tokyo"), ("carrier", "SwiftLog"),
         ("status", "Delayed"), ("priority", "Overnight")]))
      = .ok { attrs := [("origin", "Chicago"), ("destination", "Tokyo"),
                        ("carrier", "SwiftLog"), ("status", "Delayed"),
                        ("priority", "Overnight")],
              warning := none } :=
  (C2_roundtrip
    [("origin", "Chicago"), ("destination", "Tokyo"), ("carrier", "SwiftLog"),
     ("status", "Delayed"), ("priority", "Overnight")]
    "Chicago" "Tokyo" "SwiftLog" "Delayed" "Overnight"
    (by decide) (by decide) (by decide) (by decide) (by decide)
    (List.Perm.refl _)).1

/-- C6 (amended): for every subset of the assigned primes containing at
most one prime per attribute group — modelled as a sublist of the scan
entries with pairwise distinct groups; such a subset is automatically a
proper subset of the 22 assigned primes — decoding the product of the
subset populates exactly the groups whose primes are in the subset with
the values assigned to those primes, marks every other group "Unknown",
and attaches no warning. -/
theorem C6_partial_decode (chosen : List (Nat × String × String))
    (hsub : chosen.Sublist SORTED_ENTRIES)
    (hnd : (chosen.map (fun e => e.2.1)).Nodup) :
    ∃ attrs, decode_sfi_vector (Int.ofNat ((chosen.map (fun e => e.1)).prod))
        = .ok { attrs := attrs, warning := none }
      ∧ (∀ e ∈ chosen, attrs.lookup e.2.1 = some e.2.2)
      ∧ (∀ g ∈ groupNames, g ∉ chosen.map (fun e => e.2.1) →
          attrs.lookup g = some "Unknown") := by
  refine ⟨_, decode_prod_subset hsub hnd, ?_, ?_⟩
  · intro e he
    exact lookup_append_left (lookup_pairs hnd e he)
  · intro g hg hnot
    have hkeys : (chosen.map (fun e => (e.2.1, e.2.2))).map (fun kv => kv.1)
        = chosen.map (fun e => e.2.1) := by
      rw [List.map_map]
      rfl
    have hnone : (chosen.map (fun e => (e.2.1, e.2.2))).lookup g = none :=
      lookup_none_of_not_mem (by rw [hkeys]; exact hnot)
    rw [lookup_append_right hnone]
    apply lookup_map_unknown
    rw [List.mem_filter]
    refine ⟨hg, ?_⟩
    have : (chosen.map (fun e => (e.2.1, e.2.2))).any (fun kv => kv.1 == g) = false :=
      any_key_eq_false (by rw [hkeys]; exact hnot)
    rw [this]
    rfl

/-- Witness for C6 at the concrete subset of primes 3 and 47. -/
theorem C6_partial_decode_witness :
    ∃ attrs,
      decode_sfi_vector (Int.ofNat
          ((((SORTED_ENTRIES.filter (fun e => e.1 == 3 || e.1 == 47)).map
            (fun e => e.1)).prod)))
        = .ok { attrs := attrs, warning := none }
      ∧ (∀ e ∈ SORTED_ENTRIES.filter (fun e => e.1 == 3 || e.1 == 47),
          attrs.lookup e.2.1 = some e.2.2)
      ∧ (∀ g ∈ groupNames,
          g ∉ (SORTED_ENTRIES.filter (fun e => e.1 == 3 || e.1 == 47)).map
            (fun e => e.2.1) →
          attrs.lookup g = some "Unknown") :=
  C6_partial_decode _ (List.filter_sublist SORTED_ENTRIES) (by decide)

/-- C6 (counterexample to the original claim): the subset {2, 3} of
assigned primes is proper, yet decoding its product 6 does not populate
the group of prime 2 with prime 2's value "New York" — both primes
belong to group "origin" and the later prime's value overwrites the
earlier one, leaving "Los Angeles". -/
theorem C6_counterexample :
    (2, "origin", "New York") ∈ SORTED_ENTRIES
    ∧ (3, "origin", "Los Angeles") ∈ SORTED_ENTRIES
    ∧ decode_sfi_vector (Int.ofNat (2 * 3))
        = .ok { attrs := [("origin", "Los Angeles"), ("destination", "Unknown"),
                          ("carrier", "Unknown"), ("status", "Unknown"),
                          ("priority", "Unknown")],
                warning := none }
    ∧ ([("origin", "Los Angeles"), ("destination", "Unknown"), ("carrier", "Unknown"),
        ("status", "Unknown"), ("priority", "Unknown")].lookup "origin"
        ≠ some "New York") :=
  ⟨by decide, by decide, rfl, by decide⟩

theorem decode_pos (v : Int) (hv : 0 < v) :
    decode_sfi_vector v
      = .ok { attrs := fillUnknown (decodeLoop SORTED_ENTRIES v.toNat []).1,
              warning := if (decodeLoop SORTED_ENTRIES v.toNat []).2 != 1 then
                  some (decodeLoop SORTED_ENTRIES v.toNat []).2
                else none } := by
  rw [decode_sfi_vector, if_neg (by omega)]

/-- C7 (amended): for every positive vector that, after repeatedly
dividing out all assigned primes, leaves a remainder different from 1,
decode still succeeds and attaches a warning naming that leftover
remainder.  In particular `decode(2 * 3 * 999983) = decode(5999898)`
succeeds with a warning citing remainder 999983; since primes 2 and 3
both belong to group "origin", the result carries origin = "Los Angeles"
(the value of the later prime 3) and every other group "Unknown". -/
theorem C7_unrecognized_factor_warning :
    (∀ v : Int, 0 < v → stripAllAssigned v.toNat ≠ 1 →
      ∃ attrs, decode_sfi_vector v
        = .ok { attrs := attrs, warning := some (stripAllAssigned v.toNat) })
    ∧ decode_sfi_vector 5999898
      = .ok { attrs := [("origin", "Los Angeles"), ("destination", "Unknown"),
                        ("carrier", "Unknown"), ("status", "Unknown"),
                        ("priority", "Unknown")],
              warning := some 999983 } := by
  refine ⟨?_, rfl⟩
  intro v hv hne
  refine ⟨fillUnknown (decodeLoop SORTED_ENTRIES v.toNat []).1, ?_⟩
  rw [decode_pos v hv]
  have hsnd : (decodeLoop SORTED_ENTRIES v.toNat []).2 = stripAllAssigned v.toNat :=
    decodeLoop_snd entries_two_le _ _
  rw [hsnd, if_pos (bne_iff_ne.mpr hne)]

/-- Witness for C7 at the concrete vector 2 * 3 * 999983. -/
theorem C7_unrecognized_factor_witness :
    (0 : Int) < 5999898
    ∧ ∃ attrs, decode_sfi_vector 5999898
        = .ok { attrs := attrs,
                warning := some (stripAllAssigned (5999898 : Int).toNat) } :=
  ⟨by decide, C7_unrecognized_factor_warning.1 5999898 (by decide) (by decide)⟩

/-- C7 (counterexample to the original claim): decoding
`2 * 3 * 999983 = 5999898` does not decode the pair of prime 2
correctly: primes 2 and 3 both map to group "origin", so the decoded
origin is "Los Angeles" (prime 3's value), not "New York" (prime 2's
value), and no second group is populated. -/
theorem C7_counterexample :
    decode_sfi_vector (Int.ofNat (2 * 3 * 999983))
      = .ok { attrs := [("origin", "Los Angeles"), ("destination", "Unknown"),
                        ("carrier", "Unknown"), ("status", "Unknown"),
                        ("priority", "Unknown")],
              warning := some 999983 }
    ∧ (2, "origin", "New York") ∈ SORTED_ENTRIES
    ∧ ([("origin", "Los Angeles"), ("destination", "Unknown"), ("carrier", "Unknown"),
        ("status", "Unknown"), ("priority", "Unknown")].lookup "origin"
        ≠ some "New York")
    ∧ ([("origin", "Los Angeles"), ("destination", "Unknown"), ("carrier", "Unknown"),
        ("status", "Unknown"), ("priority", "Unknown")].lookup "destination"
        ≠ some "London") :=
  ⟨rfl, by decide, by decide, by decide⟩

/-- C10: decode(1) succeeds and returns a mapping in which every one of
the 5 attribute groups is set to "Unknown", with no warning attached. -/
theorem C10_decode_one :
    decode_sfi_vector 1
      = .ok { attrs := [("origin", "Unknown"), ("destination", "Unknown"),
                        ("carrier", "Unknown"), ("status", "Unknown"),
                        ("priority", "Unknown")],
              warning := none }
    ∧ groupNames = ["origin", "destination", "carrier", "status", "priority"] :=
  ⟨rfl, rfl⟩

/-- C5 (counterexample to the original claim): the catalog holds 22
(group, value) pairs, not 23, and the primes used stop at 79 — neither
83 nor 89 (the 23rd and 24th primes) is assigned. -/
theorem C5_counterexample :
    catalogPairs.length ≠ 23
    ∧ (89 : Nat) ∉ ASSIGN.map (fun e => e.2)
    ∧ (83 : Nat) ∉ ASSIGN.map (fun e => e.2) := by decide

/-- C5 (amended): the prime assignment built from the catalog is a
bijection over the 22 (group, value) pairs: reverse[forward[g][v]] is
{g, v} for every pair, the set of primes used is exactly the first 22
primes 2..79, and primes are assigned in strict catalog traversal order
(groups in declared order, values within a group in declared order),
each pair getting the smallest prime unused so far. -/
theorem C5_prime_map_bijection :
    catalogPairs.length = 22
    ∧ ASSIGN.map (fun e => e.1) = catalogPairs
    ∧ ASSIGN.map (fun e => e.2)
        = [2, 3, 5, 7, 11, 13, 17, 19, 23, 29, 31, 37, 41, 43, 47, 53, 59, 61, 67,
           71, 73, 79]
    ∧ (∀ e ∈ ASSIGN, REVERSE_PRIME_MAP.lookup e.2 = some e.1)
    ∧ (∀ e ∈ ASSIGN, primeFor e.1.1 e.1.2 = some e.2)
    ∧ (ASSIGN.map (fun e => e.2)).Nodup
    ∧ (∀ p ∈ ASSIGN.map (fun e => e.2), Nat.Prime p)
    ∧ (∀ q < 80, Nat.Prime q → q ∈ ASSIGN.map (fun e => e.2))
    ∧ (∀ i < 22, ∀ q < (ASSIGN.map (fun e => e.2)).getD i 0, Nat.Prime q →
        q ∈ (ASSIGN.map (fun e => e.2)).take i) := by decide

/-- Witness for C5: the bijection equations evaluated at the first
catalog pair. -/
theorem C5_prime_map_bijection_witness :
    (("origin", "New York"), 2) ∈ ASSIGN
    ∧ REVERSE_PRIME_MAP.lookup 2 = some ("origin", "New York")
    ∧ primeFor "origin" "New York" = some 2 :=
  ⟨by decide,
   C5_prime_map_bijection.2.2.2.1 (("origin", "New York"), 2) (by decide),
   C5_prime_map_bijection.2.2.2.2.1 (("origin", "New York"), 2) (by decide)⟩

/-- C4 (counterexample to the original claim): `get_primes` performs no
validation; for counts 0 and -7 it returns the empty list normally
instead of failing. -/
theorem C4_counterexample : get_primes 0 = [] ∧ get_primes (-7) = [] := ⟨rfl, rfl⟩

/-- C4 (amended): for every count less than or equal to zero,
`get_primes` returns the empty sequence — the generation loop body never
runs — rather than failing with a validation error. -/
theorem C4_nonpositive_empty : ∀ count : Int, count ≤ 0 → get_primes count = [] := by
  intro c hc
  rw [get_primes, Int.toNat_of_nonpos hc]
  rfl

/-- Witness for C4 at count -2. -/
theorem C4_nonpositive_empty_witness : (-2 : Int) ≤ 0 ∧ get_primes (-2) = [] :=
  ⟨by decide, C4_nonpositive_empty (-2) (by decide)⟩

/-- C3 (counterexample to the original claim): the core generator does
not fail with a ValidationError for count 0 or negative counts — it
reports success with an empty batch. -/
theorem C3_counterexample :
    generate_shipment_data 0 (fun _ => []) (fun _ => "SHP")
      = { success := true, count := 0, shipments := [] }
    ∧ generate_shipment_data (-3) (fun _ => []) (fun _ => "SHP")
      = { success := true, count := 0, shipments := [] } := ⟨rfl, rfl⟩

/-- C3 (amended): for count <= 0 the core generate operation reports
success with an empty batch (zero records); the rejection of
non-positive counts lives only in the web wrapper `generate_data` of
app.py, which fails with an invalid-count error whenever the submitted
count string is not all digits or has value zero, before the core
runs. -/
theorem C3_generate_validation :
    (∀ (count : Int) (pick : Nat → List (String × String)) (mkId : Nat → String),
      count ≤ 0 →
        generate_shipment_data count pick mkId
          = { success := true, count := 0, shipments := [] })
    ∧ (∀ (s : String) (pick : Nat → List (String × String)) (mkId : Nat → String),
        isdigitStr s = false ∨ digitsToNat s = 0 →
          generate_data s pick mkId
            = .error "Invalid count specified. Must be a positive integer.") := by
  constructor
  · intro c pick mkId hc
    rw [generate_shipment_data]
    rw [Int.toNat_of_nonpos hc]
    rfl
  · intro s pick mkId h
    rw [generate_data]
    rcases h with h | h
    · rw [if_pos (by simp [h])]
    · rw [if_pos (by simp [h])]

/-- Witness for C3 at count -3 (core) and count string "0" (wrapper). -/
theorem C3_generate_validation_witness :
    (-3 : Int) ≤ 0
    ∧ generate_shipment_data (-3) (fun _ => []) (fun _ => "SHPX")
        = { success := true, count := 0, shipments := [] }
    ∧ generate_data "0" (fun _ => []) (fun _ => "SHPX")
        = .error "Invalid count specified. Must be a positive integer." :=
  ⟨by decide, C3_generate_validation.1 (-3) _ _ (by decide),
   C3_generate_validation.2 "0" _ _ (Or.inr (by decide))⟩

/-! ## Totality of the prime generator -/

theorem isqrtAux_sq_le (k n : Nat) : isqrtAux k n * isqrtAux k n ≤ n := by
  induction k with
  | zero => simp [isqrtAux]
  | succ k ih =>
    rw [isqrtAux]
    split
    · assumption
    · exact ih

theorem le_isqrtAux {k n j : Nat} (hj : j ≤ k) (h : j * j ≤ n) : j ≤ isqrtAux k n := by
  induction k with
  | zero => omega
  | succ k ih =>
    rw [isqrtAux]
    split
    · exact hj
    · rename_i hcond
      have hjk : j ≤ k := by
        rcases Nat.lt_or_ge j (k + 1) with hlt | hge
        · omega
        · exfalso
          have : j = k + 1 := by omega
          rw [this] at h
          exact hcond h
      exact ih hjk

theorem le_isqrt_iff {i n : Nat} : i ≤ isqrt n ↔ i * i ≤ n := by
  constructor
  · intro h
    calc i * i ≤ isqrt n * isqrt n := Nat.mul_le_mul h h
    _ ≤ n := isqrtAux_sq_le n n
  · intro h
    have hin : i ≤ n := by
      cases i with
      | zero => omega
      | succ i => calc i + 1 ≤ (i + 1) * (i + 1) := Nat.le_mul_of_pos_left _ (by omega)
                  _ ≤ n := h
    exact le_isqrtAux hin h

theorem isPrimeTrial_iff {n : Nat} (h2 : 2 ≤ n) :
    isPrimeTrial n = true ↔ Nat.Prime n := by
  have hall : isPrimeTrial n = true ↔
      ∀ i, 2 ≤ i → i * i ≤ n → ¬ i ∣ n := by
    rw [isPrimeTrial, List.all_eq_true]
    have hsq1 : 1 ≤ isqrt n := le_isqrt_iff.mpr (by omega)
    constructor
    · intro h i hi2 hisq hdvd
      have hmem : i ∈ List.range' 2 (isqrt n - 1) := by
        rw [List.mem_range'_1]
        have : i ≤ isqrt n := le_isqrt_iff.mpr hisq
        omega
      have := h i hmem
      rw [Nat.dvd_iff_mod_eq_zero] at hdvd
      simp [hdvd] at this
    · intro h i hmem
      rw [List.mem_range'_1] at hmem
      have hisq : i ≤ isqrt n := by omega
      have := h i (by omega) (le_isqrt_iff.mp hisq)
      rw [Nat.dvd_iff_mod_eq_zero] at this
      simpa using this
  rw [hall]
  constructor
  · intro h
    by_contra hnp
    have hmf := Nat.minFac_dvd n
    have hmfp := Nat.minFac_prime (show n ≠ 1 by omega)
    have hmfsq : n.minFac ^ 2 ≤ n := Nat.minFac_sq_le_self (by omega) hnp
    exact h n.minFac hmfp.two_le (by nlinarith [hmfsq]) hmf
  · intro hp i hi2 hisq hdvd
    have hilt : i < n := by nlinarith
    have h1 := (Nat.prime_def_lt.mp hp).2 i hilt hdvd
    omega

theorem searchPrime_found {fuel num : Nat}
    (h : ∃ k, k < fuel ∧ isPrimeTrial (num + k) = true) :
    isPrimeTrial (searchPrime fuel num) = true ∧ num ≤ searchPrime fuel num := by
  induction fuel generalizing num with
  | zero =>
    obtain ⟨k, hk, _⟩ := h
    omega
  | succ fuel ih =>
    rw [searchPrime]
    cases ht : isPrimeTrial num with
    | true =>
      have hred : (if (true = true) then num else searchPrime fuel (num + 1)) = num :=
        if_pos rfl
      rw [hred]
      exact ⟨ht, Nat.le_refl num⟩
    | false =>
      have hred : (if (false = true) then num else searchPrime fuel (num + 1))
          = searchPrime fuel (num + 1) := if_neg (by simp)
      rw [hred]
      have h2 : ∃ k, k < fuel ∧ isPrimeTrial (num + 1 + k) = true := by
        obtain ⟨k, hk, hkt⟩ := h
        cases k with
        | zero =>
          rw [Nat.add_zero] at hkt
          rw [hkt] at ht
          cases ht
        | succ k =>
          refine ⟨k, by omega, ?_⟩
          have : num + 1 + k = num + (k + 1) := by omega
          rw [this]
          exact hkt
      obtain ⟨hfound, hge⟩ := ih h2
      exact ⟨hfound, by omega⟩

theorem searchPrime_fuel_sufficient (num : Nat) (h2 : 2 ≤ num) :
    ∃ k, k < num + 2 ∧ isPrimeTrial (num + k) = true := by
  obtain ⟨p, hp, hlt, hle⟩ := Nat.bertrand num (by omega)
  refine ⟨p - num, by omega, ?_⟩
  have : num + (p - num) = p := by omega
  rw [this]
  exact (isPrimeTrial_iff hp.two_le).mpr hp

theorem getPrimesAux_length (n num : Nat) : (getPrimesAux n num).length = n := by
  induction n generalizing num with
  | zero => rfl
  | succ n ih =>
    rw [getPrimesAux]
    simp only [List.length_cons]
    rw [ih]

theorem getPrimesAux_primes (n : Nat) : ∀ num, 2 ≤ num →
    ∀ p ∈ getPrimesAux n num, Nat.Prime p := by
  induction n with
  | zero => intro num _ p hp; cases hp
  | succ n ih =>
    intro num hnum p hp
    rw [getPrimesAux] at hp
    simp only [List.mem_cons] at hp
    have hfound := searchPrime_found (searchPrime_fuel_sufficient num hnum)
    rcases hp with rfl | hp
    · exact (isPrimeTrial_iff (by omega)).mp hfound.1
    · exact ih (searchPrime (num + 2) num + 1) (by omega) p hp

/-- C9: `get_primes` terminates for every integer count — the search
loop that increments the candidate always eventually finds the next
prime within the proven fuel bound (Bertrand), so the function is total:
it returns a list of `count` primes for positive `count`, and the empty
list otherwise. -/
theorem C9_get_primes_total :
    (∀ count : Int, (get_primes count).length = count.toNat)
    ∧ (∀ count : Int, count ≤ 0 → get_primes count = [])
    ∧ (∀ count : Int, ∀ p ∈ get_primes count, Nat.Prime p)
    ∧ (∀ num : Nat, 2 ≤ num → ∃ k, k < num + 2 ∧ isPrimeTrial (num + k) = true) := by
  refine ⟨?_, ?_, ?_, searchPrime_fuel_sufficient⟩
  · intro c
    exact getPrimesAux_length c.toNat 2
  · intro c hc
    rw [get_primes, Int.toNat_of_nonpos hc]
    rfl
  · intro c p hp
    exact getPrimesAux_primes c.toNat 2 (by omega) p hp

/-- Witness for C9: concrete totality outputs. -/
theorem C9_get_primes_total_witness :
    (get_primes 4).length = (4 : Int).toNat
    ∧ get_primes (-1) = []
    ∧ Nat.Prime 5
    ∧ ∃ k, k < 2 + 2 ∧ isPrimeTrial (2 + k) = true :=
  ⟨C9_get_primes_total.1 4,
   C9_get_primes_total.2.1 (-1) (by decide),
   C9_get_primes_total.2.2.1 3 5 (by decide),
   C9_get_primes_total.2.2.2 2 (by decide)⟩

/-! ## The filter vector -/

theorem build_filter_foldl (cs : List (String × String)) (a : Nat)
    (l : List (String × String)) :
    cs.foldl
        (fun acc gv =>
          match primeFor gv.1 gv.2 with
          | some p => (acc.1 * p, acc.2 ++ [gv])
          | none => acc) (a, l)
      = (a * (cs.filterMap (fun gv => primeFor gv.1 gv.2)).prod,
         l ++ cs.filter (fun gv => (primeFor gv.1 gv.2).isSome)) := by
  induction cs generalizing a l with
  | nil => simp
  | cons gv rest ih =>
    rw [List.foldl_cons, List.filterMap_cons, List.filter_cons]
    cases hpf : primeFor gv.1 gv.2 with
    | none =>
      simp only [hpf, Option.isSome_none, Bool.false_eq_true, if_false]
      exact ih a l
    | some p =>
      simp only [hpf, Option.isSome_some, if_true, List.prod_cons]
      rw [ih (a * p) (l ++ [gv])]
      rw [Prod.ext_iff]
      constructor
      · rw [Nat.mul_assoc]
      · rw [List.append_assoc]
        rfl

theorem build_filter_eq (criteria : List (String × String)) :
    build_filter criteria
      = ((criteria.filterMap (fun gv => primeFor gv.1 gv.2)).prod,
         criteria.filter (fun gv => (primeFor gv.1 gv.2).isSome)) := by
  rw [build_filter, build_filter_foldl, Nat.one_mul, List.nil_append]

theorem filterMap_primeFor_primes (criteria : List (String × String)) :
    ∀ p ∈ criteria.filterMap (fun gv => primeFor gv.1 gv.2), Nat.Prime p := by
  intro p hp
  rcases List.mem_filterMap.mp hp with ⟨gv, _, hpf⟩
  exact primeFor_prime hpf

theorem filter_vector_ge_two {criteria : List (String × String)}
    {gv : String × String} (hmem : gv ∈ criteria)
    (hsome : (primeFor gv.1 gv.2).isSome = true) :
    2 ≤ (criteria.filterMap (fun gv => primeFor gv.1 gv.2)).prod := by
  obtain ⟨p, hp⟩ := Option.isSome_iff_exists.mp hsome
  have hpmem : p ∈ criteria.filterMap (fun gv => primeFor gv.1 gv.2) :=
    List.mem_filterMap.mpr ⟨gv, hmem, hp⟩
  have hpos : 0 < (criteria.filterMap (fun gv => primeFor gv.1 gv.2)).prod :=
    prod_pos_of_primes (filterMap_primeFor_primes criteria)
  have hle := Nat.le_of_dvd hpos (List.dvd_prod hpmem)
  have h2 := (primeFor_prime hp).two_le
  omega

theorem filterMap_primeFor_nodup {criteria : List (String × String)}
    (hnd : (criteria.map (fun gv => gv.1)).Nodup)
    (hall : ∀ gv ∈ criteria, (primeFor gv.1 gv.2).isSome = true) :
    (criteria.filterMap (fun gv => primeFor gv.1 gv.2)).Nodup := by
  induction criteria with
  | nil => simp
  | cons gv rest ih =>
    obtain ⟨p, hp⟩ :=
      Option.isSome_iff_exists.mp (hall gv (List.mem_cons_self gv rest))
    rw [List.map_cons] at hnd
    rcases List.nodup_cons.mp hnd with ⟨hnm, hnd_r⟩
    rw [List.filterMap_cons, hp, List.nodup_cons]
    refine ⟨?_, ih hnd_r (fun gv2 h2 => hall gv2 (List.mem_cons_of_mem _ h2))⟩
    intro hmem
    rcases List.mem_filterMap.mp hmem with ⟨gv2, hgv2, hp2⟩
    have hinj := primeFor_inj hp2 hp
    exact hnm (hinj.1 ▸ List.mem_map.mpr ⟨gv2, hgv2, rfl⟩)

/-- C8: when at least one criterion pair exists in the prime assignment,
the computed filter vector is never 1 (every assigned prime is at least
2), so the internal-error branch that reports a filter vector of 1
despite valid criteria is unreachable; when zero valid criteria remain
the operation instead fails with "No valid filter criteria provided." -/
theorem C8_filter_vector_invariant :
    ∀ (criteria : List (String × String)) (records : List Shipment),
      ((∃ gv ∈ criteria, (primeFor gv.1 gv.2).isSome = true) →
        (build_filter criteria).1 ≠ 1
        ∧ filter_shipment_data criteria records
            ≠ .error "Internal error creating filter vector from valid criteria.")
      ∧ ((∀ gv ∈ criteria, primeFor gv.1 gv.2 = none) →
        filter_shipment_data criteria records
          = .error "No valid filter criteria provided.") := by
  intro criteria records
  constructor
  · rintro ⟨gv, hmem, hsome⟩
    have hge2 := filter_vector_ge_two hmem hsome
    have hfv : (build_filter criteria).1 ≠ 1 := by
      rw [build_filter_eq]
      omega
    refine ⟨hfv, ?_⟩
    have hbeq : ((build_filter criteria).1 == 1) = false := by
      simpa using hfv
    simp [filter_shipment_data, hbeq]
  · intro hnone
    have hfm : criteria.filterMap (fun gv => primeFor gv.1 gv.2) = [] := by
      rw [List.filterMap_eq_nil_iff]
      exact hnone
    have hfl : criteria.filter (fun gv => (primeFor gv.1 gv.2).isSome) = [] := by
      rw [List.filter_eq_nil_iff]
      intro gv hgv
      rw [hnone gv hgv]
      simp
    simp [filter_shipment_data, build_filter_eq, hfm, hfl]

/-- Witness for C8: one present criterion (origin = New York) avoids
both failures; one absent criterion (origin = Atlantis) hits the
no-valid-criteria failure. -/
theorem C8_filter_vector_invariant_witness :
    ((build_filter [("origin", "New York")]).1 ≠ 1
      ∧ filter_shipment_data [("origin", "New York")] []
          ≠ .error "Internal error creating filter vector from valid criteria.")
    ∧ filter_shipment_data [("origin", "Atlantis")] []
        = .error "No valid filter criteria provided." :=
  ⟨(C8_filter_vector_invariant [("origin", "New York")] []).1
      ⟨("origin", "New York"), by decide, by decide⟩,
   (C8_filter_vector_invariant [("origin", "Atlantis")] []).2 (by decide)⟩

/-- C1 (amended): for every sequence of records and every nonempty
criteria mapping (dict: pairwise distinct groups) whose pairs are all
present in the prime assignment, the filter succeeds, its filter vector
is the product of the criteria's primes, the single test performed per
record is `sfi_vector % filterVector == 0`, and a record appears in the
result iff `forward[g][v]` divides its `sfi_vector` for every pair
(g, v) of the criteria. -/
theorem C1_filter_divisibility :
    ∀ (records : List Shipment) (criteria : List (String × String)),
      criteria ≠ [] →
      (criteria.map (fun gv => gv.1)).Nodup →
      (∀ gv ∈ criteria, (primeFor gv.1 gv.2).isSome = true) →
      ∃ res, filter_shipment_data criteria records = .ok res
        ∧ res.filter_vector
            = (criteria.filterMap (fun gv => primeFor gv.1 gv.2)).prod
        ∧ res.results = records.filter (fun s =>
            s.sfi_vector % (criteria.filterMap (fun gv => primeFor gv.1 gv.2)).prod == 0)
        ∧ ∀ s ∈ records, (s ∈ res.results ↔
            ∀ gv ∈ criteria, ∀ p, primeFor gv.1 gv.2 = some p → p ∣ s.sfi_vector) := by
  intro records criteria hne hnd hall
  obtain ⟨gv0, hgv0⟩ := List.exists_mem_of_ne_nil criteria hne
  have hge2 := filter_vector_ge_two hgv0 (hall gv0 hgv0)
  have hvalid : criteria.filter (fun gv => (primeFor gv.1 gv.2).isSome) = criteria :=
    List.filter_eq_self.mpr hall
  have hbeq : ((criteria.filterMap (fun gv => primeFor gv.1 gv.2)).prod == 1) = false := by
    simp only [beq_eq_false_iff_ne, ne_eq]
    omega
  refine ⟨{ criteria_used := criteria,
            filter_vector := (criteria.filterMap (fun gv => primeFor gv.1 gv.2)).prod,
            total_checked := records.length,
            results := records.filter (fun s =>
              s.sfi_vector %
                (criteria.filterMap (fun gv => primeFor gv.1 gv.2)).prod == 0) },
    ?_, rfl, rfl, ?_⟩
  · simp [filter_shipment_data, build_filter_eq, hvalid, hbeq]
  · intro s hs
    rw [List.mem_filter]
    have hdvd_iff : (s.sfi_vector %
          (criteria.filterMap (fun gv => primeFor gv.1 gv.2)).prod == 0) = true
        ↔ (criteria.filterMap (fun gv => primeFor gv.1 gv.2)).prod ∣ s.sfi_vector := by
      rw [beq_iff_eq, Nat.dvd_iff_mod_eq_zero]
    rw [prod_primes_dvd_iff (filterMap_primeFor_primes criteria)
        (filterMap_primeFor_nodup hnd hall)] at hdvd_iff
    constructor
    · rintro ⟨_, hmod⟩ gv hgv p hp
      exact hdvd_iff.mp hmod p (List.mem_filterMap.mpr ⟨gv, hgv, hp⟩)
    · intro h
      refine ⟨hs, hdvd_iff.mpr ?_⟩
      intro p hp
      rcases List.mem_filterMap.mp hp with ⟨gv, hgv, hpf⟩
      exact h gv hgv p hpf

/-- Witness for C1: criteria origin = New York and status = Pending
(primes 2 and 47, filter vector 94) over two concrete records. -/
theorem C1_filter_divisibility_witness :
    ∃ res, filter_shipment_data [("origin", "New York"), ("status", "Pending")]
        [Shipment.mk "A" 94, Shipment.mk "B" 10] = .ok res
      ∧ res.filter_vector
          = (([("origin", "New York"), ("status", "Pending")] :
              List (String × String)).filterMap (fun gv => primeFor gv.1 gv.2)).prod
      ∧ res.results = [Shipment.mk "A" 94, Shipment.mk "B" 10].filter (fun s =>
          s.sfi_vector % (([("origin", "New York"), ("status", "Pending")] :
            List (String × String)).filterMap (fun gv => primeFor gv.1 gv.2)).prod == 0)
      ∧ ∀ s ∈ [Shipment.mk "A" 94, Shipment.mk "B" 10], (s ∈ res.results ↔
          ∀ gv ∈ ([("origin", "New York"), ("status", "Pending")] :
            List (String × String)),
            ∀ p, primeFor gv.1 gv.2 = some p → p ∣ s.sfi_vector) :=
  C1_filter_divisibility [Shipment.mk "A" 94, Shipment.mk "B" 10]
    [("origin", "New York"), ("status", "Pending")]
    (by decide) (by decide) (by decide)

/-- C1 (counterexample to the original claim): for the empty criteria
mapping — all of whose pairs are vacuously present in the assignment —
the divisibility condition holds vacuously for the record, yet the
record appears in no filter result: the operation fails instead of
returning everything. -/
theorem C1_counterexample :
    filter_shipment_data [] [Shipment.mk "SHP1" 6]
        = .error "No valid filter criteria provided."
    ∧ (∀ gv ∈ ([] : List (String × String)),
        ∀ p, primeFor gv.1 gv.2 = some p → p ∣ (6 : Nat))
    ∧ ¬ ∃ res, filter_shipment_data [] [Shipment.mk "SHP1" 6] = .ok res
        ∧ Shipment.mk "SHP1" 6 ∈ res.results := by
  refine ⟨rfl, by simp, ?_⟩
  rintro ⟨res, hres, _⟩
  rw [show filter_shipment_data [] [Shipment.mk "SHP1" 6]
      = .error "No valid filter criteria provided." from rfl] at hres
  simp at hres
